import Mathlib

/-!
Shallow embedding of the Lab06 concurrent-pipeline repository
(src/src/p5_pipeline.cpp and src/src/p2_ring.cpp) and proofs of the
specification claims about it.

Modelling conventions:
* C++ `double` values are modelled as `ℚ`; monotonic-clock timestamps are
  modelled as `ℚ` instants, so a latency is a difference of instants.
* C++ `int`/`long` are modelled as `Int`; `std::size_t` counters and
  indices are modelled as `Nat`.  The `%` of C++ on `int` is truncated
  division, so it is embedded as `Int.tmod`.
* The blocking condition-variable waits are given their sequential
  (linearized) semantics: an operation whose wait predicate cannot be
  satisfied in the current state — a push on a full queue or a pop on an
  empty queue with no shutdown requested — performs no queue mutation and
  reports failure, exactly the observable outcome of the timed waits of
  p5_pipeline.cpp (`pthread_cond_timedwait` expiring) and of a
  never-signalled `pthread_cond_wait` of p2_ring.cpp.  The block counters
  (`producer_blocks`/`consumer_blocks`) that the wait loop of p2_ring.cpp
  increments before sleeping are incremented once on that path.
-/

namespace Lab6

/-! ## Constants (p5_pipeline.cpp lines 29-31, p2_ring.cpp line 25) -/

def DEFAULT_TICKS : Nat := 1000

def BUFFER_SIZE : Nat := 100

def DATA_RANGE : Nat := 10000

def QUEUE_SIZE : Nat := 1024

/-! ## DataItem (p5_pipeline.cpp lines 34-44) -/

/-- The record flowing through the pipeline.  Field names follow the C++
struct `DataItem`; `timestamp` is the monotonic creation instant. -/
structure DataItem where
  id : Int
  raw_value : Int
  processed_value : ℚ
  is_valid : Bool
  timestamp : ℚ
  deriving DecidableEq, Repr

/-- The two-argument constructor `DataItem(int _id, int _val)`
(p5_pipeline.cpp line 42): stores the id and the raw value, initializes
`processed_value` to `0.0` and `is_valid` to `false`, and stamps the item
with the current monotonic instant `now`. -/
def make_item (id : Int) (raw_value : Int) (now : ℚ) : DataItem :=
  { id := id, raw_value := raw_value, processed_value := 0,
    is_valid := false, timestamp := now }

/-! ## Stage 2: processor (p5_pipeline.cpp lines 366-430) -/

/-- The per-item transform of `stage_processor` (p5_pipeline.cpp lines
384-400).  The numeric computation — lookup table, `log`/`sin`/`cos`, the
volatile accumulation loop — is floating-point arithmetic depending only
on `raw_value` and `id`; it is abstracted here as the parameter `compute`,
since every claim about this stage concerns which fields it writes, and
that is independent of the value computed.  The stage assigns the
resulting value to `processed_value` and touches no other field. -/
def stage_process_item (compute : Int → Int → ℚ) (item : DataItem) : DataItem :=
  { item with processed_value := compute item.raw_value item.id }

/-! ## Stage 3: filter/reduce (p5_pipeline.cpp lines 436-520) -/

/-- The filtering predicate of `stage_filter_reduce` (p5_pipeline.cpp
lines 455-467): `passes_filter` starts `false` and is set `true` only
inside the three nested criteria:
processed value strictly between 0.1 and 100.0, id not divisible by 13,
and raw value divisible by 3 or by 7. -/
def passes_filter (item : DataItem) : Bool :=
  if (0.1 : ℚ) < item.processed_value ∧ item.processed_value < (100.0 : ℚ) then
    if item.id.tmod 13 ≠ 0 then
      if item.raw_value.tmod 3 = 0 ∨ item.raw_value.tmod 7 = 0 then
        true
      else false
    else false
  else false

/-- The accumulator state threaded through `stage_filter_reduce`:
the stage-local `filtered_count` and `accumulated_result`
(p5_pipeline.cpp lines 438-439) together with the global
`pipeline_stats.items_filtered` and `pipeline_stats.total_latency_ms`
they update (lines 481, 495-499). -/
structure FilterState where
  filtered_count : Nat
  accumulated_result : ℚ
  items_filtered : Int
  total_latency_ms : ℚ
  deriving DecidableEq, Repr

/-- The body of one tick of `stage_filter_reduce` after the pop
(p5_pipeline.cpp lines 455-499), at monotonic instant `now`: evaluates the
filter, and for a passing item marks it valid, bumps the counts, adds
`processed_value` to the running accumulator and the end-to-end latency
`now - item.timestamp` to the latency total; a failing item is marked
invalid and contributes to nothing. -/
def filter_reduce_step (s : FilterState) (item : DataItem) (now : ℚ) :
    FilterState × DataItem :=
  if passes_filter item then
    ({ filtered_count := s.filtered_count + 1,
       accumulated_result := s.accumulated_result + item.processed_value,
       items_filtered := s.items_filtered + 1,
       total_latency_ms := s.total_latency_ms + (now - item.timestamp) },
     { item with is_valid := true })
  else
    (s, { item with is_valid := false })

/-- The filter/reduce stage folded over the whole sequence of items it
consumes, each paired with the monotonic instant at which the stage
handles it. -/
def run_filter_stage (inputs : List (DataItem × ℚ)) (s : FilterState) :
    FilterState :=
  inputs.foldl (fun st p => (filter_reduce_step st p.1 p.2).1) s

/-! ## Tick-loop bounds (p5_pipeline.cpp lines 312-360, 366-430, 436-520,
544-604) -/

/-- The loop bound of `stage_generator` (p5_pipeline.cpp line 314):
the worker receives only its stage id through the thread argument and
sets `int ticks = DEFAULT_TICKS`, so the bound is the built-in constant
whatever the argument is. -/
def stage_generator_ticks (_stage_arg : Int) : Nat := DEFAULT_TICKS

/-- The loop bound of `stage_processor` (p5_pipeline.cpp line 375):
`for (int tick = 0; tick < DEFAULT_TICKS; tick++)`. -/
def stage_processor_ticks (_stage_arg : Int) : Nat := DEFAULT_TICKS

/-- The loop bound of `stage_filter_reduce` (p5_pipeline.cpp line 446):
`for (int tick = 0; tick < DEFAULT_TICKS; tick++)`. -/
def stage_filter_reduce_ticks (_stage_arg : Int) : Nat := DEFAULT_TICKS

/-- The tick bounds of the three stage threads spawned by
`run_pipeline_benchmark(num_ticks)` (p5_pipeline.cpp lines 563-565): the
thread argument of each worker is its stage id (1, 2, 3) — the `num_ticks`
parameter is never passed to any stage. -/
def run_pipeline_benchmark_tick_bounds (_num_ticks : Nat) : Nat × Nat × Nat :=
  (stage_generator_ticks 1, stage_processor_ticks 2, stage_filter_reduce_ticks 3)

/-! ## The circular ring buffer (p2_ring.cpp lines 32-177) -/

/-- The `Ring` struct of p2_ring.cpp: a fixed-capacity circular buffer of
ints with producer index `head`, consumer index `tail`, element count
`count`, the two shutdown flags, and the monitoring counters.  The C++
array `int buffer[QUEUE_SIZE]` is embedded as a total function on indices;
only indices below `cap` are ever read.  The source fixes the capacity to
the constant `QUEUE_SIZE = 1024`; it is kept as a field here so the
specification scenarios that speak of other capacities instantiate the
same algorithm at their capacity. -/
structure RingBuf where
  cap : Nat
  buffer : Nat → Int
  head : Nat
  tail : Nat
  count : Nat
  stop_requested : Bool
  force_stop : Bool
  total_produced : Int
  total_consumed : Int
  producer_blocks : Int
  consumer_blocks : Int

/-- The initial state of a `Ring` as aggregate-initialized in
`run_benchmark` (p2_ring.cpp line 270): indices and counters zero, flags
clear; the array contents are indeterminate in C++ and fixed to 0 here
(no claim depends on unwritten slots). -/
def RingBuf.init (cap : Nat) : RingBuf :=
  { cap := cap, buffer := fun _ => 0, head := 0, tail := 0, count := 0,
    stop_requested := false, force_stop := false,
    total_produced := 0, total_consumed := 0,
    producer_blocks := 0, consumer_blocks := 0 }

/-- Producer operation `ring_push` (p2_ring.cpp lines 69-100).  The wait
loop runs while the buffer is full and no stop was requested; in the
sequential semantics that wait cannot be satisfied, so the operation
bumps `producer_blocks` (the loop body does so before sleeping) and
reports failure with the queue untouched.  When a stop flag is visible,
the post-loop check returns `false` with nothing mutated.  Otherwise the
value is stored at `head`, `head` advances modulo the capacity, and
`count` and `total_produced` are incremented. -/
def ring_push (r : RingBuf) (value : Int) : RingBuf × Bool :=
  if r.count = r.cap ∧ r.stop_requested = false ∧ r.force_stop = false then
    ({ r with producer_blocks := r.producer_blocks + 1 }, false)
  else if r.stop_requested = true ∨ r.force_stop = true then
    (r, false)
  else
    ({ r with
        buffer := fun i => if i = r.head then value else r.buffer i,
        head := (r.head + 1) % r.cap,
        count := r.count + 1,
        total_produced := r.total_produced + 1 }, true)

/-- Consumer operation `ring_pop` (p2_ring.cpp lines 110-136).  The wait
loop runs while the buffer is empty and no stop was requested (bumping
`consumer_blocks`); after it, an empty buffer with a stop flag set
returns failure; otherwise the element at `tail` is returned, `tail`
advances modulo the capacity, `count` is decremented and `total_consumed`
incremented. -/
def ring_pop (r : RingBuf) : RingBuf × Option Int :=
  if r.count = 0 ∧ r.stop_requested = false ∧ r.force_stop = false then
    ({ r with consumer_blocks := r.consumer_blocks + 1 }, none)
  else if r.count = 0 ∧ (r.stop_requested = true ∨ r.force_stop = true) then
    (r, none)
  else
    ({ r with
        tail := (r.tail + 1) % r.cap,
        count := r.count - 1,
        total_consumed := r.total_consumed + 1 }, some (r.buffer r.tail))

/-- `ring_shutdown` (p2_ring.cpp lines 142-152): sets `stop_requested`
and broadcasts to all waiters (the broadcast has no state beyond waking,
so the embedded effect is the flag write). -/
def ring_shutdown (r : RingBuf) : RingBuf :=
  { r with stop_requested := true }

/-- `ring_force_stop` (p2_ring.cpp lines 157-163): sets `force_stop` and
broadcasts. -/
def ring_force_stop (r : RingBuf) : RingBuf :=
  { r with force_stop := true }

/-- The abstract FIFO content of the ring: the `count` stored values
starting at the consumer index `tail`, read in circular order. -/
def RingBuf.contents (r : RingBuf) : List Int :=
  (List.range r.count).map (fun i => r.buffer ((r.tail + i) % r.cap))

/-- Structural well-formedness of a ring state: positive capacity, count
within capacity, consumer index in range, and the producer index one past
the stored block.  `RingBuf.init` establishes it and every operation
preserves it. -/
def RingBuf.WF (r : RingBuf) : Prop :=
  0 < r.cap ∧ r.count ≤ r.cap ∧ r.tail < r.cap ∧
    r.head = (r.tail + r.count) % r.cap

/-- One client request against the ring, for trace-based statements. -/
inductive RingOp where
  | push (value : Int)
  | pop
  | shutdown
  | forceStop
  deriving DecidableEq, Repr

/-- Runs a sequence of operations against the ring, returning the final
state, the list of values whose push succeeded (in order), and the list
of values returned by successful pops (in order). -/
def ring_run : List RingOp → RingBuf → RingBuf × List Int × List Int
  | [], r => (r, [], [])
  | op :: ops, r =>
    match op with
    | .push v =>
      let step := ring_push r v
      let rest := ring_run ops step.1
      (rest.1, (if step.2 then [v] else []) ++ rest.2.1, rest.2.2)
    | .pop =>
      let step := ring_pop r
      let rest := ring_run ops step.1
      (rest.1, rest.2.1,
        (match step.2 with | some v => [v] | none => []) ++ rest.2.2)
    | .shutdown => ring_run ops (ring_shutdown r)
    | .forceStop => ring_run ops (ring_force_stop r)

/-! ## The inter-stage buffers of the pipeline (p5_pipeline.cpp lines
153-302) -/

/-- One inter-stage buffer of p5_pipeline.cpp: a `std::queue<DataItem>`
whose size is bounded by the capacity check of the push wait loop.  The
source fixes the capacity to `BUFFER_SIZE = 100`; it is a field here for
the same reason as in `RingBuf`.  The head of `items` is the front of the
queue. -/
structure StageBuffer where
  cap : Nat
  items : List DataItem
  deriving DecidableEq, Repr

/-- `push_to_buffer1` (p5_pipeline.cpp lines 153-191), sequential
semantics, with the global `pipeline_shutdown` flag passed explicitly.
The wait loop runs while `size >= BUFFER_SIZE` and no shutdown; its timed
wait expiring returns `false` with the buffer untouched.  After the loop
a visible shutdown returns `false`; otherwise the item is appended at the
back and `true` returned.  (`push_to_buffer2`, lines 231-267, is the same
routine on the other buffer.) -/
def push_to_buffer (shutdown : Bool) (b : StageBuffer) (item : DataItem) :
    StageBuffer × Bool :=
  if b.cap ≤ b.items.length ∧ shutdown = false then
    (b, false)
  else if shutdown = true then
    (b, false)
  else
    ({ b with items := b.items ++ [item] }, true)

/-- `pop_from_buffer1` (p5_pipeline.cpp lines 196-226), sequential
semantics.  The wait loop runs while the queue is empty and no shutdown;
its timed wait expiring returns failure.  After the loop an empty queue —
which at that point means shutdown was observed with nothing to drain —
returns failure; otherwise the front item is removed and returned.
(`pop_from_buffer2`, lines 272-302, is the same routine on the other
buffer.) -/
def pop_from_buffer (shutdown : Bool) (b : StageBuffer) :
    StageBuffer × Option DataItem :=
  if b.items.length = 0 ∧ shutdown = false then
    (b, none)
  else if b.items.length = 0 then
    (b, none)
  else
    ({ b with items := b.items.tail }, b.items.head?)

/-! ## The once-guard (p5_pipeline.cpp lines 53-54, 114-144, 318-319,
372-373, 443-444) -/

/-- Modelled from the spec: the `OnceGuard` component (spec section 4.3).
The source delegates it to the platform primitive `pthread_once`
(`pthread_once(&once_flag, init_shared_resources)`), whose implementation
is not part of the repository, so the guard is modelled from the spec
contract: state transitions `NotStarted → Running → Done`, with
`Running → Done` irreversible and no reset. -/
inductive GuardState where
  | notStarted
  | running
  | done
  deriving DecidableEq, Repr

/-- Modelled from the spec: the global state of any number of symmetric
threads racing through the once-guard.  Threads are interchangeable, so
the configuration records how many are in each phase: not yet arrived
(`idle`), blocked waiting for the designated caller (`waiting`),
executing the initializer body (`running`), and returned (`done`).
`counter` counts completed executions of the initializer body (the
`incrementCounter` oracle of the spec's once-exactness property). -/
structure OnceSys where
  guard : GuardState
  counter : Nat
  idle : Nat
  waiting : Nat
  running : Nat
  done : Nat
  deriving DecidableEq, Repr

/-- Modelled from the spec: initial configuration with `n` threads about
to call `run(initializer)`, before any has arrived. -/
def OnceSys.start (n : Nat) : OnceSys :=
  { guard := .notStarted, counter := 0, idle := n, waiting := 0,
    running := 0, done := 0 }

/-- Modelled from the spec: one atomic step of the once-guard protocol,
taken by an arbitrary scheduled thread.  An arriving thread that finds
the guard untouched becomes the designated caller; an arrival during the
execution blocks; an arrival after completion returns at once; the
designated caller completes the body (bumping the counter) and marks the
guard done; a blocked thread returns once the guard is done. -/
inductive OnceStep : OnceSys → OnceSys → Prop where
  | arriveWin (s : OnceSys) (h : 0 < s.idle) (hg : s.guard = .notStarted) :
      OnceStep s { guard := .running, counter := s.counter,
                   idle := s.idle - 1, waiting := s.waiting,
                   running := s.running + 1, done := s.done }
  | arriveWait (s : OnceSys) (h : 0 < s.idle) (hg : s.guard = .running) :
      OnceStep s { s with idle := s.idle - 1, waiting := s.waiting + 1 }
  | arriveAfter (s : OnceSys) (h : 0 < s.idle) (hg : s.guard = .done) :
      OnceStep s { s with idle := s.idle - 1, done := s.done + 1 }
  | execBody (s : OnceSys) (h : 0 < s.running) :
      OnceStep s { guard := .done, counter := s.counter + 1,
                   idle := s.idle, waiting := s.waiting,
                   running := s.running - 1, done := s.done + 1 }
  | wake (s : OnceSys) (h : 0 < s.waiting) (hg : s.guard = .done) :
      OnceStep s { s with waiting := s.waiting - 1, done := s.done + 1 }

/-- Modelled from the spec: the configurations reachable by interleaving
guard steps in any order. -/
def OnceReachable (a b : OnceSys) : Prop :=
  Relation.ReflTransGen OnceStep a b

/-! ## Helper lemmas about the ring operations -/

/-- A push that reports failure leaves every queue field untouched (only
the block counter may move). -/
lemma ring_push_fail_frame (r : RingBuf) (v : Int)
    (h : (ring_push r v).2 = false) :
    (ring_push r v).1.cap = r.cap ∧ (ring_push r v).1.buffer = r.buffer ∧
      (ring_push r v).1.head = r.head ∧ (ring_push r v).1.tail = r.tail ∧
      (ring_push r v).1.count = r.count ∧
      (ring_push r v).1.stop_requested = r.stop_requested ∧
      (ring_push r v).1.force_stop = r.force_stop ∧
      (ring_push r v).1.total_produced = r.total_produced ∧
      (ring_push r v).1.total_consumed = r.total_consumed := by
  unfold ring_push at h ⊢
  split_ifs at h ⊢ <;> simp_all

/-- A pop that reports failure leaves every queue field untouched (only
the block counter may move). -/
lemma ring_pop_fail_frame (r : RingBuf)
    (h : (ring_pop r).2 = none) :
    (ring_pop r).1.cap = r.cap ∧ (ring_pop r).1.buffer = r.buffer ∧
      (ring_pop r).1.head = r.head ∧ (ring_pop r).1.tail = r.tail ∧
      (ring_pop r).1.count = r.count ∧
      (ring_pop r).1.stop_requested = r.stop_requested ∧
      (ring_pop r).1.force_stop = r.force_stop ∧
      (ring_pop r).1.total_produced = r.total_produced ∧
      (ring_pop r).1.total_consumed = r.total_consumed := by
  unfold ring_pop at h ⊢
  split_ifs at h ⊢ <;> simp_all

/-- A push reports success exactly when the buffer is not full and no
stop flag is visible. -/
lemma ring_push_succ_iff (r : RingBuf) (v : Int) :
    (ring_push r v).2 = true ↔
      r.count ≠ r.cap ∧ r.stop_requested = false ∧ r.force_stop = false := by
  unfold ring_push
  split_ifs with h1 h2
  · simp only [Bool.false_eq_true, false_iff]
    rintro ⟨hc, _, _⟩
    exact hc h1.1
  · simp only [Bool.false_eq_true, false_iff]
    rintro ⟨_, hs, hf⟩
    rcases h2 with h2 | h2
    · exact (by simp [hs] at h2)
    · exact (by simp [hf] at h2)
  · simp only [true_iff]
    push_neg at h2
    have hs : r.stop_requested = false := by
      cases h : r.stop_requested
      · rfl
      · exact absurd h h2.1
    have hf : r.force_stop = false := by
      cases h : r.force_stop
      · rfl
      · exact absurd h h2.2
    refine ⟨fun hc => h1 ⟨hc, hs, hf⟩, hs, hf⟩

/-- The effect of a successful push. -/
lemma ring_push_succ_eq (r : RingBuf) (v : Int) (hc : r.count ≠ r.cap)
    (hs : r.stop_requested = false) (hf : r.force_stop = false) :
    ring_push r v =
      ({ r with
          buffer := fun i => if i = r.head then v else r.buffer i,
          head := (r.head + 1) % r.cap,
          count := r.count + 1,
          total_produced := r.total_produced + 1 }, true) := by
  unfold ring_push
  split_ifs with h1 h2
  · exact absurd h1 (by simp [hc])
  · exact absurd h2 (by simp [hs, hf])
  · rfl

/-- A pop reports a value exactly when the buffer is nonempty. -/
lemma ring_pop_some_iff (r : RingBuf) :
    (ring_pop r).2.isSome = true ↔ r.count ≠ 0 := by
  unfold ring_pop
  split_ifs with h1 h2 <;> simp_all

/-- The effect of a successful pop. -/
lemma ring_pop_succ_eq (r : RingBuf) (hc : r.count ≠ 0) :
    ring_pop r =
      ({ r with
          tail := (r.tail + 1) % r.cap,
          count := r.count - 1,
          total_consumed := r.total_consumed + 1 }, some (r.buffer r.tail)) := by
  unfold ring_pop
  split_ifs with h1 h2
  · exact absurd h1.1 hc
  · exact absurd h2.1 hc
  · rfl

/-- Two ring states agreeing on the queue fields have the same abstract
content. -/
lemma contents_congr (r r' : RingBuf) (hcap : r'.cap = r.cap)
    (hbuf : r'.buffer = r.buffer) (htail : r'.tail = r.tail)
    (hcount : r'.count = r.count) : r'.contents = r.contents := by
  unfold RingBuf.contents
  rw [hcap, hbuf, htail, hcount]

/-- Two ring states agreeing on the queue fields are equally
well-formed. -/
lemma wf_congr (r r' : RingBuf) (hcap : r'.cap = r.cap)
    (hhead : r'.head = r.head) (htail : r'.tail = r.tail)
    (hcount : r'.count = r.count) : r'.WF ↔ r.WF := by
  unfold RingBuf.WF
  rw [hcap, hhead, htail, hcount]

/-- Indices of distinct in-range offsets from `tail` stay distinct after
the modular wrap, provided both offsets are below the capacity. -/
lemma mod_index_inj (cap tail i j : Nat) (hi : i < cap) (hj : j < cap)
    (h : (tail + i) % cap = (tail + j) % cap) : i = j := by
  have hmod : Nat.ModEq cap i j := Nat.ModEq.add_left_cancel' tail h
  have := hmod
  unfold Nat.ModEq at this
  rwa [Nat.mod_eq_of_lt hi, Nat.mod_eq_of_lt hj] at this

/-- A successful push appends the pushed value at the back of the
abstract content and preserves well-formedness. -/
lemma ring_push_contents (r : RingBuf) (v : Int) (hwf : r.WF)
    (hc : r.count < r.cap) (hs : r.stop_requested = false)
    (hf : r.force_stop = false) :
    (ring_push r v).2 = true ∧
      (ring_push r v).1.contents = r.contents ++ [v] ∧
      (ring_push r v).1.WF := by
  obtain ⟨hcap, hcnt, htail, hhead⟩ := hwf
  have hne : r.count ≠ r.cap := Nat.ne_of_lt hc
  rw [ring_push_succ_eq r v hne hs hf]
  refine ⟨rfl, ?_, ?_⟩
  · show (List.range (r.count + 1)).map
        (fun i => if (r.tail + i) % r.cap = r.head then v
          else r.buffer ((r.tail + i) % r.cap)) = r.contents ++ [v]
    rw [List.range_succ, List.map_append]
    have hrest : (List.range r.count).map
        (fun i => if (r.tail + i) % r.cap = r.head then v
          else r.buffer ((r.tail + i) % r.cap)) = r.contents := by
      apply List.map_congr_left
      intro i hi
      have hilt : i < r.count := List.mem_range.mp hi
      rw [if_neg]
      intro heq
      rw [hhead] at heq
      have : i = r.count :=
        mod_index_inj r.cap r.tail i r.count
          (lt_trans hilt hc) hc heq
      omega
    rw [hrest]
    simp only [List.map_cons, List.map_nil]
    rw [if_pos hhead.symm]
  · refine ⟨hcap, Nat.succ_le_of_lt hc, htail, ?_⟩
    show (r.head + 1) % r.cap = (r.tail + (r.count + 1)) % r.cap
    rw [hhead, Nat.mod_add_mod, Nat.add_assoc]

/-- A successful pop returns the front of the abstract content, leaves
the remainder, and preserves well-formedness. -/
lemma ring_pop_contents (r : RingBuf) (hwf : r.WF) (hc : r.count ≠ 0) :
    (ring_pop r).2 = some (r.buffer r.tail) ∧
      r.contents = r.buffer r.tail :: (ring_pop r).1.contents ∧
      (ring_pop r).1.WF := by
  obtain ⟨hcap, hcnt, htail, hhead⟩ := hwf
  obtain ⟨k, hk⟩ : ∃ k, r.count = k + 1 :=
    ⟨r.count - 1, (Nat.succ_pred_eq_of_ne_zero hc).symm⟩
  rw [ring_pop_succ_eq r hc]
  refine ⟨rfl, ?_, ?_⟩
  · show r.contents = r.buffer r.tail ::
        (List.range (r.count - 1)).map
          (fun i => r.buffer (((r.tail + 1) % r.cap + i) % r.cap))
    unfold RingBuf.contents
    rw [hk]
    simp only [Nat.add_sub_cancel]
    rw [List.range_succ_eq_map k, List.map_cons, List.map_map]
    congr 1
    · rw [Nat.add_zero, Nat.mod_eq_of_lt htail]
    · apply List.map_congr_left
      intro i _
      simp only [Function.comp_apply]
      rw [Nat.mod_add_mod]
      have harg : r.tail + 1 + i = r.tail + Nat.succ i := by omega
      rw [harg]
  · refine ⟨hcap, le_trans (Nat.sub_le _ _) hcnt, Nat.mod_lt _ hcap, ?_⟩
    show r.head = ((r.tail + 1) % r.cap + (r.count - 1)) % r.cap
    rw [hhead, Nat.mod_add_mod]
    have harg : r.tail + 1 + (r.count - 1) = r.tail + r.count := by omega
    rw [harg]

/-- The FIFO trace invariant: running any sequence of operations on a
well-formed ring keeps it well-formed, and the values returned by
successful pops followed by the values remaining in the buffer are
exactly the initial content followed by the values of successful pushes,
in order. -/
lemma ring_run_spec (ops : List RingOp) : ∀ r : RingBuf, r.WF →
    (ring_run ops r).1.WF ∧
      (ring_run ops r).2.2 ++ (ring_run ops r).1.contents
        = r.contents ++ (ring_run ops r).2.1 := by
  induction ops with
  | nil =>
    intro r hwf
    exact ⟨hwf, by simp [ring_run]⟩
  | cons op ops ih =>
    intro r hwf
    cases op with
    | push v =>
      by_cases hp : (ring_push r v).2 = true
      · obtain ⟨hc, hs, hf⟩ := (ring_push_succ_iff r v).mp hp
        have hlt : r.count < r.cap := lt_of_le_of_ne hwf.2.1 hc
        obtain ⟨-, hcont, hwf'⟩ := ring_push_contents r v hwf hlt hs hf
        obtain ⟨ihwf, iheq⟩ := ih (ring_push r v).1 hwf'
        constructor
        · simpa [ring_run] using ihwf
        · simp only [ring_run, hp, if_true]
          rw [hcont] at iheq
          rw [iheq, List.append_assoc]
      · have hpf : (ring_push r v).2 = false := by
          cases h : (ring_push r v).2
          · rfl
          · exact absurd h hp
        obtain ⟨h1, h2, h3, h4, h5, _, _, _, _⟩ := ring_push_fail_frame r v hpf
        have hcont : (ring_push r v).1.contents = r.contents :=
          contents_congr r _ h1 h2 h4 h5
        have hwf' : (ring_push r v).1.WF :=
          (wf_congr r _ h1 h3 h4 h5).mpr hwf
        obtain ⟨ihwf, iheq⟩ := ih (ring_push r v).1 hwf'
        constructor
        · simpa [ring_run] using ihwf
        · simp only [ring_run, hpf, Bool.false_eq_true, if_false]
          rw [hcont] at iheq
          simpa using iheq
    | pop =>
      by_cases hp : (ring_pop r).2.isSome = true
      · have hc : r.count ≠ 0 := (ring_pop_some_iff r).mp hp
        obtain ⟨hsome, hcont, hwf'⟩ := ring_pop_contents r hwf hc
        obtain ⟨ihwf, iheq⟩ := ih (ring_pop r).1 hwf'
        constructor
        · simpa [ring_run] using ihwf
        · simp only [ring_run, hsome]
          rw [hcont]
          simp only [List.singleton_append, List.cons_append, List.append_assoc,
            List.nil_append]
          rw [iheq]
      · have hnone : (ring_pop r).2 = none := by
          cases h : (ring_pop r).2
          · rfl
          · exact absurd (by simp [h]) hp
        obtain ⟨h1, h2, h3, h4, h5, _, _, _, _⟩ := ring_pop_fail_frame r hnone
        have hcont : (ring_pop r).1.contents = r.contents :=
          contents_congr r _ h1 h2 h4 h5
        have hwf' : (ring_pop r).1.WF :=
          (wf_congr r _ h1 h3 h4 h5).mpr hwf
        obtain ⟨ihwf, iheq⟩ := ih (ring_pop r).1 hwf'
        constructor
        · simpa [ring_run] using ihwf
        · simp only [ring_run, hnone]
          rw [hcont] at iheq
          simpa using iheq
    | shutdown =>
      have hwf' : (ring_shutdown r).WF := hwf
      obtain ⟨ihwf, iheq⟩ := ih (ring_shutdown r) hwf'
      exact ⟨ihwf, iheq⟩
    | forceStop =>
      have hwf' : (ring_force_stop r).WF := hwf
      obtain ⟨ihwf, iheq⟩ := ih (ring_force_stop r) hwf'
      exact ⟨ihwf, iheq⟩

/-- `RingBuf.init` is well-formed whenever the capacity is positive. -/
lemma ring_init_wf (cap : Nat) (h : 0 < cap) : (RingBuf.init cap).WF := by
  refine ⟨h, Nat.zero_le _, h, ?_⟩
  simp [RingBuf.init]

/-- A freshly initialized ring holds nothing. -/
lemma ring_init_contents (cap : Nat) : (RingBuf.init cap).contents = [] := by
  simp [RingBuf.init, RingBuf.contents]


/-- A Boolean that is not `true` is `false`. -/
lemma bool_eq_false_of_ne_true {b : Bool} (h : ¬b = true) : b = false := by
  cases b
  · rfl
  · exact absurd rfl h

/-- Capacity trace invariant: running any operation sequence preserves
the capacity field and keeps the element count within it. -/
lemma ring_run_count_le (ops : List RingOp) : ∀ r : RingBuf,
    r.count ≤ r.cap →
      (ring_run ops r).1.cap = r.cap ∧ (ring_run ops r).1.count ≤ r.cap := by
  induction ops with
  | nil => exact fun r h => ⟨rfl, h⟩
  | cons op ops ih =>
    intro r h
    cases op with
    | push v =>
      have hstep : (ring_push r v).1.cap = r.cap ∧
          (ring_push r v).1.count ≤ r.cap := by
        by_cases hp : (ring_push r v).2 = true
        · obtain ⟨hc, hs, hf⟩ := (ring_push_succ_iff r v).mp hp
          rw [ring_push_succ_eq r v hc hs hf]
          refine ⟨rfl, ?_⟩
          show r.count + 1 ≤ r.cap
          omega
        · obtain ⟨h1, -, -, -, h5, -⟩ :=
            ring_push_fail_frame r v (bool_eq_false_of_ne_true hp)
          rw [h1, h5]
          exact ⟨rfl, h⟩
      obtain ⟨ihcap, ihle⟩ := ih (ring_push r v).1 (hstep.1 ▸ hstep.2)
      exact ⟨by rw [show (ring_run (RingOp.push v :: ops) r).1
          = (ring_run ops (ring_push r v).1).1 from rfl, ihcap, hstep.1],
        by rw [show (ring_run (RingOp.push v :: ops) r).1
          = (ring_run ops (ring_push r v).1).1 from rfl, ← hstep.1]; exact ihle⟩
    | pop =>
      have hstep : (ring_pop r).1.cap = r.cap ∧
          (ring_pop r).1.count ≤ r.cap := by
        by_cases hp : (ring_pop r).2.isSome = true
        · have hc := (ring_pop_some_iff r).mp hp
          rw [ring_pop_succ_eq r hc]
          refine ⟨rfl, ?_⟩
          show r.count - 1 ≤ r.cap
          omega
        · have hnone : (ring_pop r).2 = none := by
            cases hq : (ring_pop r).2
            · rfl
            · exact absurd (by simp [hq]) hp
          obtain ⟨h1, -, -, -, h5, -⟩ := ring_pop_fail_frame r hnone
          rw [h1, h5]
          exact ⟨rfl, h⟩
      obtain ⟨ihcap, ihle⟩ := ih (ring_pop r).1 (hstep.1 ▸ hstep.2)
      exact ⟨by rw [show (ring_run (RingOp.pop :: ops) r).1
          = (ring_run ops (ring_pop r).1).1 from rfl, ihcap, hstep.1],
        by rw [show (ring_run (RingOp.pop :: ops) r).1
          = (ring_run ops (ring_pop r).1).1 from rfl, ← hstep.1]; exact ihle⟩
    | shutdown => exact ih (ring_shutdown r) h
    | forceStop => exact ih (ring_force_stop r) h

/-- Counter trace invariant: the difference between the produced and
consumed totals always equals the current element count. -/
lemma ring_run_balance (ops : List RingOp) : ∀ r : RingBuf,
    r.total_produced - r.total_consumed = (r.count : Int) →
      (ring_run ops r).1.total_produced - (ring_run ops r).1.total_consumed
        = ((ring_run ops r).1.count : Int) := by
  induction ops with
  | nil => exact fun r h => h
  | cons op ops ih =>
    intro r h
    cases op with
    | push v =>
      apply ih
      by_cases hp : (ring_push r v).2 = true
      · obtain ⟨hc, hs, hf⟩ := (ring_push_succ_iff r v).mp hp
        rw [ring_push_succ_eq r v hc hs hf]
        show r.total_produced + 1 - r.total_consumed = ((r.count + 1 : Nat) : Int)
        omega
      · obtain ⟨-, -, -, -, h5, -, -, h8, h9⟩ :=
          ring_push_fail_frame r v (bool_eq_false_of_ne_true hp)
        rw [h5, h8, h9]
        exact h
    | pop =>
      apply ih
      by_cases hp : (ring_pop r).2.isSome = true
      · have hc := (ring_pop_some_iff r).mp hp
        rw [ring_pop_succ_eq r hc]
        show r.total_produced - (r.total_consumed + 1) = ((r.count - 1 : Nat) : Int)
        omega
      · have hnone : (ring_pop r).2 = none := by
          cases hq : (ring_pop r).2
          · rfl
          · exact absurd (by simp [hq]) hp
        obtain ⟨-, -, -, -, h5, -, -, h8, h9⟩ := ring_pop_fail_frame r hnone
        rw [h5, h8, h9]
        exact h
    | shutdown => exact ih (ring_shutdown r) h
    | forceStop => exact ih (ring_force_stop r) h


/-- Once the shutdown flag is set, a push returns `false` and leaves the
whole ring state unchanged: the wait loop is not entered (its predicate
requires the flag clear) and the post-loop check fails immediately. -/
lemma ring_push_stopped (r : RingBuf) (v : Int)
    (h : r.stop_requested = true) : ring_push r v = (r, false) := by
  unfold ring_push
  split_ifs with h1 h2
  · rw [h1.2.1] at h
    exact absurd h (by simp)
  · rfl
  · exact absurd (Or.inl h) h2

/-- Shutdown persistence: once the shutdown flag is set, no subsequent
push in any operation sequence succeeds, and the flag stays set. -/
lemma ring_run_stopped (ops : List RingOp) : ∀ r : RingBuf,
    r.stop_requested = true →
      (ring_run ops r).2.1 = [] ∧
        (ring_run ops r).1.stop_requested = true := by
  induction ops with
  | nil => exact fun r h => ⟨rfl, h⟩
  | cons op ops ih =>
    intro r h
    cases op with
    | push v =>
      have hstep := ring_push_stopped r v h
      have ih' := ih r h
      constructor
      · show (if (ring_push r v).2 then [v] else []) ++
            (ring_run ops (ring_push r v).1).2.1 = []
        rw [hstep]
        simpa using ih'.1
      · show (ring_run ops (ring_push r v).1).1.stop_requested = true
        rw [hstep]
        exact ih'.2
    | pop =>
      have hflag : (ring_pop r).1.stop_requested = true := by
        unfold ring_pop
        split_ifs <;> exact h
      have ih' := ih (ring_pop r).1 hflag
      exact ⟨ih'.1, ih'.2⟩
    | shutdown => exact ih (ring_shutdown r) rfl
    | forceStop => exact ih (ring_force_stop r) h


/-- The inductive invariant of the once-guard protocol: the body counter
tracks whether the guard reached `done`, the thread phases partition the
`n` callers, before the first arrival nobody is past `idle`, while the
body runs exactly one thread runs it and nobody has returned, and after
completion nobody is in the body. -/
def OnceInv (n : Nat) (s : OnceSys) : Prop :=
  s.counter = (if s.guard = .done then 1 else 0)
  ∧ s.idle + s.waiting + s.running + s.done = n
  ∧ (s.guard = .notStarted → s.waiting = 0 ∧ s.running = 0 ∧ s.done = 0)
  ∧ (s.guard = .running → s.running = 1 ∧ s.done = 0)
  ∧ (s.guard = .done → s.running = 0)

/-- The invariant holds initially. -/
lemma onceInv_start (n : Nat) : OnceInv n (OnceSys.start n) := by
  refine ⟨rfl, by simp [OnceSys.start], fun _ => ⟨rfl, rfl, rfl⟩, ?_, ?_⟩ <;>
    intro h <;> simp [OnceSys.start] at h

/-- The invariant is preserved by every protocol step. -/
lemma onceInv_step {n : Nat} {s s' : OnceSys}
    (hinv : OnceInv n s) (hstep : OnceStep s s') : OnceInv n s' := by
  obtain ⟨hcnt, htot, hns, hrun, hdone⟩ := hinv
  cases hstep with
  | arriveWin h hg =>
    obtain ⟨hw, hr, hd⟩ := hns hg
    rw [hg] at hcnt
    refine ⟨by simpa using hcnt, by simp; omega, ?_, ?_, ?_⟩
    · intro hh
      simp at hh
    · intro _
      simp [hr, hd]
    · intro hh
      simp at hh
  | arriveWait h hg =>
    refine ⟨hcnt, by simp; omega, ?_, ?_, ?_⟩
    · intro hh
      rw [hh] at hg
      simp at hg
    · intro hh
      exact hrun hh
    · intro hh
      exact hdone hh
  | arriveAfter h hg =>
    refine ⟨hcnt, by simp; omega, ?_, ?_, ?_⟩
    · intro hh
      rw [hh] at hg
      simp at hg
    · intro hh
      rw [hh] at hg
      simp at hg
    · intro hh
      exact hdone hh
  | execBody h =>
    have hg : s.guard = .running := by
      cases hcase : s.guard
      · have := (hns hcase).2.1
        omega
      · rfl
      · have := hdone hcase
        omega
    obtain ⟨hr1, hd0⟩ := hrun hg
    rw [hg] at hcnt
    refine ⟨by simpa using hcnt, by simp; omega, ?_, ?_, ?_⟩
    · intro hh
      simp at hh
    · intro hh
      simp at hh
    · intro _
      simp [hr1]
  | wake h hg =>
    refine ⟨hcnt, by simp; omega, ?_, ?_, ?_⟩
    · intro hh
      rw [hh] at hg
      simp at hg
    · intro hh
      rw [hh] at hg
      simp at hg
    · intro _
      exact hdone hg

/-- The invariant holds in every reachable configuration. -/
lemma onceInv_reachable {n : Nat} {s : OnceSys}
    (h : OnceReachable (OnceSys.start n) s) : OnceInv n s := by
  induction h with
  | refl => exact onceInv_start n
  | tail _ hstep ih => exact onceInv_step ih hstep


/-- Fold characterization of the filter/reduce stage: the accumulator
and the latency total each end as the start value plus the sum over
exactly the passing items. -/
lemma run_filter_stage_sums (inputs : List (DataItem × ℚ)) : ∀ s : FilterState,
    (run_filter_stage inputs s).accumulated_result
      = s.accumulated_result +
        (((inputs.filter fun p => passes_filter p.1).map
          fun p => p.1.processed_value).sum)
    ∧ (run_filter_stage inputs s).total_latency_ms
      = s.total_latency_ms +
        (((inputs.filter fun p => passes_filter p.1).map
          fun p => p.2 - p.1.timestamp).sum) := by
  induction inputs with
  | nil =>
    intro s
    simp [run_filter_stage]
  | cons p ps ih =>
    intro s
    have hrec : run_filter_stage (p :: ps) s
        = run_filter_stage ps (filter_reduce_step s p.1 p.2).1 := rfl
    obtain ⟨ih1, ih2⟩ := ih (filter_reduce_step s p.1 p.2).1
    by_cases h : passes_filter p.1
    · have hacc : (filter_reduce_step s p.1 p.2).1.accumulated_result
          = s.accumulated_result + p.1.processed_value := by
        simp [filter_reduce_step, h]
      have hlat : (filter_reduce_step s p.1 p.2).1.total_latency_ms
          = s.total_latency_ms + (p.2 - p.1.timestamp) := by
        simp [filter_reduce_step, h]
      rw [hrec]
      constructor
      · rw [ih1, hacc, List.filter_cons_of_pos (by simpa using h)]
        simp [add_assoc]
      · rw [ih2, hlat, List.filter_cons_of_pos (by simpa using h)]
        simp [add_assoc]
    · have hstate : (filter_reduce_step s p.1 p.2).1 = s := by
        simp [filter_reduce_step, h]
      rw [hstate] at ih1 ih2
      rw [hrec, hstate]
      constructor
      · rw [ih1, List.filter_cons_of_neg (by simpa using h)]
      · rw [ih2, List.filter_cons_of_neg (by simpa using h)]

/-- C1: in the filter/reduce stage, an item passes filtering if and only
if 0.1 < processedValue < 100.0 and id mod 13 is nonzero and rawValue is
divisible by 3 or by 7; every passing item adds its processedValue to the
running accumulator and its end-to-end latency (now - createdAt) to the
latency total, and a non-passing item contributes to neither, both for a
single step and summed over the whole consumed sequence. -/
theorem stage_filter_reduce_spec (item : DataItem) (now : ℚ) (s : FilterState)
    (inputs : List (DataItem × ℚ)) (s0 : FilterState) :
    (passes_filter item = true ↔
      ((0.1 : ℚ) < item.processed_value ∧ item.processed_value < (100.0 : ℚ) ∧
        item.id.tmod 13 ≠ 0 ∧
        (item.raw_value.tmod 3 = 0 ∨ item.raw_value.tmod 7 = 0)))
    ∧ (filter_reduce_step s item now).1.accumulated_result
        = (if passes_filter item
            then s.accumulated_result + item.processed_value
            else s.accumulated_result)
    ∧ (filter_reduce_step s item now).1.total_latency_ms
        = (if passes_filter item
            then s.total_latency_ms + (now - item.timestamp)
            else s.total_latency_ms)
    ∧ (run_filter_stage inputs s0).accumulated_result
        = s0.accumulated_result + (((inputs.filter fun p => passes_filter p.1).map
            fun p => p.1.processed_value).sum)
    ∧ (run_filter_stage inputs s0).total_latency_ms
        = s0.total_latency_ms + (((inputs.filter fun p => passes_filter p.1).map
            fun p => p.2 - p.1.timestamp).sum) := by
  refine ⟨?_, ?_, ?_, (run_filter_stage_sums inputs s0).1,
    (run_filter_stage_sums inputs s0).2⟩
  · unfold passes_filter
    split_ifs with h1 h2 h3 <;> simp_all
  · unfold filter_reduce_step
    split_ifs <;> rfl
  · unfold filter_reduce_step
    split_ifs <;> rfl

/-- C2 (refuted; the code ignores the configured tick count): evaluating
the embedded stage tick bounds of `run_pipeline_benchmark` at the
externally supplied tick count 5 yields the built-in constant
`DEFAULT_TICKS = 1000` for all three stage worker loops, not 5 — the
worker threads receive only their stage id and bound their loops by
`DEFAULT_TICKS`. -/
theorem run_pipeline_ignores_tick_count :
    run_pipeline_benchmark_tick_bounds 5
        = (DEFAULT_TICKS, DEFAULT_TICKS, DEFAULT_TICKS)
      ∧ DEFAULT_TICKS = 1000
      ∧ run_pipeline_benchmark_tick_bounds 5 ≠ (5, 5, 5) := by
  refine ⟨rfl, rfl, ?_⟩
  decide

/-- C3: starting from the empty initial state, after any sequence of
push/pop/shutdown operations the bounded queue satisfies
`0 ≤ count ≤ capacity` (the lower bound holds by the `Nat` type of
`count`); moreover a push on a full queue reports failure and inserts
nothing, and a pop on an empty queue reports failure and removes
nothing. -/
theorem ring_capacity_invariant (cap : Nat) (ops : List RingOp)
    (rfull rempty : RingBuf) (v : Int)
    (hfull : rfull.count = rfull.cap) (hempty : rempty.count = 0) :
    (0 ≤ (ring_run ops (RingBuf.init cap)).1.count
      ∧ (ring_run ops (RingBuf.init cap)).1.count ≤ cap)
    ∧ ((ring_push rfull v).2 = false
        ∧ (ring_push rfull v).1.count = rfull.count)
    ∧ ((ring_pop rempty).2 = none ∧ (ring_pop rempty).1.count = 0) := by
  refine ⟨⟨Nat.zero_le _,
    (ring_run_count_le ops (RingBuf.init cap) (Nat.zero_le _)).2⟩, ?_, ?_⟩
  · unfold ring_push
    split_ifs with h1 h2
    · exact ⟨rfl, rfl⟩
    · exact ⟨rfl, rfl⟩
    · push_neg at h2
      have hs : rfull.stop_requested = false := bool_eq_false_of_ne_true h2.1
      have hf : rfull.force_stop = false := bool_eq_false_of_ne_true h2.2
      exact absurd ⟨hfull, hs, hf⟩ h1
  · unfold ring_pop
    split_ifs with h1 h2
    · exact ⟨rfl, hempty⟩
    · exact ⟨rfl, hempty⟩
    · push_neg at h2
      obtain ⟨hs, hf⟩ := h2 hempty
      exact absurd ⟨hempty, bool_eq_false_of_ne_true hs,
        bool_eq_false_of_ne_true hf⟩ h1

/-- C3 witness: the capacity invariant instantiated at capacity 2 after
pushes and a pop, a full capacity-1 ring rejecting a push, and an empty
ring rejecting a pop. -/
theorem ring_capacity_invariant_witness :
    (0 ≤ (ring_run [RingOp.push 1, RingOp.push 2, RingOp.pop]
        (RingBuf.init 2)).1.count
      ∧ (ring_run [RingOp.push 1, RingOp.push 2, RingOp.pop]
        (RingBuf.init 2)).1.count ≤ 2)
    ∧ ((ring_push (ring_run [RingOp.push 7] (RingBuf.init 1)).1 9).2 = false
        ∧ (ring_push (ring_run [RingOp.push 7] (RingBuf.init 1)).1 9).1.count
            = (ring_run [RingOp.push 7] (RingBuf.init 1)).1.count)
    ∧ ((ring_pop (RingBuf.init 3)).2 = none
        ∧ (ring_pop (RingBuf.init 3)).1.count = 0) :=
  ring_capacity_invariant 2 [RingOp.push 1, RingOp.push 2, RingOp.pop]
    (ring_run [RingOp.push 7] (RingBuf.init 1)).1 (RingBuf.init 3) 9
    (by decide) (by decide)

/-- C4: FIFO order — for any (single-producer single-consumer,
i.e. linearized) operation sequence from the empty initial state, the
values returned by successful pops followed by the values still enqueued
are exactly the values inserted by successful pushes, in order: nothing
is lost, duplicated, or reordered. -/
theorem ring_fifo_order (cap : Nat) (ops : List RingOp) (hcap : 0 < cap) :
    (ring_run ops (RingBuf.init cap)).2.2
        ++ (ring_run ops (RingBuf.init cap)).1.contents
      = (ring_run ops (RingBuf.init cap)).2.1 := by
  have h := (ring_run_spec ops (RingBuf.init cap) (ring_init_wf cap hcap)).2
  rwa [ring_init_contents cap, List.nil_append] at h

/-- C4 witness: the FIFO property instantiated at capacity 2 with two
pushes and one pop. -/
theorem ring_fifo_order_witness :
    (ring_run [RingOp.push 5, RingOp.push 6, RingOp.pop]
          (RingBuf.init 2)).2.2
        ++ (ring_run [RingOp.push 5, RingOp.push 6, RingOp.pop]
          (RingBuf.init 2)).1.contents
      = (ring_run [RingOp.push 5, RingOp.push 6, RingOp.pop]
          (RingBuf.init 2)).2.1 :=
  ring_fifo_order 2 [RingOp.push 5, RingOp.push 6, RingOp.pop] (by decide)

/-- C5: once the shutdown flag is visible, every push returns `false`
and leaves the queue state completely unchanged, so in any subsequent
operation sequence the successful-push trace is empty and every pop can
return only a prefix of the items that were already enqueued before
shutdown; the pipeline inter-stage buffer push behaves the same way. -/
theorem shutdown_blocks_pushes (r : RingBuf) (ops : List RingOp) (v : Int)
    (b : StageBuffer) (item : DataItem)
    (hs : r.stop_requested = true) (hwf : r.WF) :
    ((ring_push r v).2 = false ∧ (ring_push r v).1 = r)
    ∧ (ring_run ops r).2.1 = []
    ∧ (∃ rest, (ring_run ops r).2.2 ++ rest = r.contents)
    ∧ ((push_to_buffer true b item).2 = false
        ∧ (push_to_buffer true b item).1 = b) := by
  have hstep := ring_push_stopped r v hs
  refine ⟨⟨by rw [hstep], by rw [hstep]⟩, (ring_run_stopped ops r hs).1, ?_, ?_⟩
  · refine ⟨(ring_run ops r).1.contents, ?_⟩
    have h := (ring_run_spec ops r hwf).2
    rw [(ring_run_stopped ops r hs).1, List.append_nil] at h
    exact h
  · constructor <;> simp [push_to_buffer]

/-- C5 witness: shutdown hit on a capacity-4 ring holding two items,
followed by pops and an attempted push; the buffer-side push under
shutdown on an empty capacity-4 buffer. -/
theorem shutdown_blocks_pushes_witness :
    ((ring_push (ring_shutdown
        (ring_run [RingOp.push 3, RingOp.push 4] (RingBuf.init 4)).1) 9).2 = false
      ∧ (ring_push (ring_shutdown
        (ring_run [RingOp.push 3, RingOp.push 4] (RingBuf.init 4)).1) 9).1
          = ring_shutdown
            (ring_run [RingOp.push 3, RingOp.push 4] (RingBuf.init 4)).1)
    ∧ (ring_run [RingOp.pop, RingOp.push 9, RingOp.pop, RingOp.pop]
        (ring_shutdown
          (ring_run [RingOp.push 3, RingOp.push 4] (RingBuf.init 4)).1)).2.1 = []
    ∧ (∃ rest, (ring_run [RingOp.pop, RingOp.push 9, RingOp.pop, RingOp.pop]
        (ring_shutdown
          (ring_run [RingOp.push 3, RingOp.push 4] (RingBuf.init 4)).1)).2.2 ++ rest
        = (ring_shutdown
            (ring_run [RingOp.push 3, RingOp.push 4] (RingBuf.init 4)).1).contents)
    ∧ ((push_to_buffer true (StageBuffer.mk 4 []) (make_item 0 0 0)).2 = false
        ∧ (push_to_buffer true (StageBuffer.mk 4 []) (make_item 0 0 0)).1
            = StageBuffer.mk 4 []) :=
  shutdown_blocks_pushes
    (ring_shutdown (ring_run [RingOp.push 3, RingOp.push 4] (RingBuf.init 4)).1)
    [RingOp.pop, RingOp.push 9, RingOp.pop, RingOp.pop] 9
    (StageBuffer.mk 4 []) (make_item 0 0 0) (by decide)
    ⟨by decide, by decide, by decide, by decide⟩

/-- C6: a pop after shutdown returns empty only when the queue is empty
— on any nonempty queue the pop succeeds and returns the head item
regardless of the shutdown flag, so pre-shutdown items can be drained;
pop returns empty exactly when the queue is empty at the decision point
(the modeled deadline-expiry path or shutdown observed with an empty
queue). -/
theorem pop_drains_after_shutdown (sd : Bool) (b : StageBuffer) (x : DataItem)
    (bs : List DataItem) (r : RingBuf)
    (hb : b.items = x :: bs) (hr : r.count ≠ 0) :
    pop_from_buffer sd b = ({ b with items := bs }, some x)
    ∧ (ring_pop r).2 = some (r.buffer r.tail)
    ∧ (ring_pop r).1.count = r.count - 1
    ∧ (∀ sd2 : Bool, ∀ b2 : StageBuffer,
        ((pop_from_buffer sd2 b2).2 = none ↔ b2.items = []))
    ∧ (∀ r2 : RingBuf, ((ring_pop r2).2 = none ↔ r2.count = 0)) := by
  refine ⟨?_, ?_, ?_, ?_, ?_⟩
  · unfold pop_from_buffer
    split_ifs with h1 h2
    · rw [hb] at h1
      simp at h1
    · rw [hb] at h2
      simp at h2
    · rw [hb]
      simp
  · rw [ring_pop_succ_eq r hr]
  · rw [ring_pop_succ_eq r hr]
  · intro sd2 b2
    unfold pop_from_buffer
    split_ifs with h1 h2
    · simpa using List.length_eq_zero.mp h1.1
    · simpa using List.length_eq_zero.mp h2
    · cases hcase : b2.items with
      | nil =>
        rw [hcase] at h2
        simp at h2
      | cons y ys =>
        simp [hcase]
  · intro r2
    constructor
    · intro hnone
      by_contra hc
      rw [ring_pop_succ_eq r2 hc] at hnone
      simp at hnone
    · intro hc
      unfold ring_pop
      split_ifs with h1 h2
      · rfl
      · rfl
      · push_neg at h2
        obtain ⟨hs, hf⟩ := h2 hc
        exact absurd ⟨hc, bool_eq_false_of_ne_true hs,
          bool_eq_false_of_ne_true hf⟩ h1

/-- C6 witness: a pop with the shutdown flag set on a nonempty
inter-stage buffer and on a nonempty ring after `ring_shutdown`, both
returning the head item. -/
theorem pop_drains_after_shutdown_witness :
    pop_from_buffer true (StageBuffer.mk 100 [make_item 1 3 0, make_item 2 6 0])
        = (StageBuffer.mk 100 [make_item 2 6 0], some (make_item 1 3 0))
    ∧ (ring_pop (ring_shutdown
        (ring_run [RingOp.push 5] (RingBuf.init 4)).1)).2
      = some ((ring_shutdown
        (ring_run [RingOp.push 5] (RingBuf.init 4)).1).buffer
          (ring_shutdown
            (ring_run [RingOp.push 5] (RingBuf.init 4)).1).tail)
    ∧ (ring_pop (ring_shutdown
        (ring_run [RingOp.push 5] (RingBuf.init 4)).1)).1.count
      = (ring_shutdown
          (ring_run [RingOp.push 5] (RingBuf.init 4)).1).count - 1
    ∧ (∀ sd2 : Bool, ∀ b2 : StageBuffer,
        ((pop_from_buffer sd2 b2).2 = none ↔ b2.items = []))
    ∧ (∀ r2 : RingBuf, ((ring_pop r2).2 = none ↔ r2.count = 0)) := by
  have h := pop_drains_after_shutdown true
    (StageBuffer.mk 100 [make_item 1 3 0, make_item 2 6 0])
    (make_item 1 3 0) [make_item 2 6 0]
    (ring_shutdown (ring_run [RingOp.push 5] (RingBuf.init 4)).1)
    (by decide) (by decide)
  exact h

/-- C7: a push that fails — by modeled deadline expiry or shutdown —
leaves the queue state unchanged: buffer array, indices, count and
abstract content of the ring are untouched, and a failed pipeline-buffer
push returns the buffer exactly as it was. -/
theorem failed_push_preserves_queue (r : RingBuf) (v : Int) (sd : Bool)
    (b : StageBuffer) (item : DataItem)
    (hr : (ring_push r v).2 = false)
    (hb : (push_to_buffer sd b item).2 = false) :
    ((ring_push r v).1.buffer = r.buffer
      ∧ (ring_push r v).1.head = r.head
      ∧ (ring_push r v).1.tail = r.tail
      ∧ (ring_push r v).1.count = r.count
      ∧ (ring_push r v).1.contents = r.contents)
    ∧ (push_to_buffer sd b item).1 = b := by
  obtain ⟨h1, h2, h3, h4, h5, -⟩ := ring_push_fail_frame r v hr
  refine ⟨⟨h2, h3, h4, h5, contents_congr r _ h1 h2 h4 h5⟩, ?_⟩
  unfold push_to_buffer at hb ⊢
  split_ifs at hb ⊢ <;> simp_all

/-- C7 witness: the boundary scenario at capacity 4 with no consumer —
the first four pushes succeed in order, the fifth returns `false` and
the four previously enqueued items remain, on both the pipeline buffer
and the ring. -/
theorem failed_push_preserves_queue_witness :
    (push_to_buffer false (StageBuffer.mk 4 []) (make_item 0 10 0)
        = (StageBuffer.mk 4 [make_item 0 10 0], true))
    ∧ (push_to_buffer false (StageBuffer.mk 4 [make_item 0 10 0])
          (make_item 1 11 0)
        = (StageBuffer.mk 4 [make_item 0 10 0, make_item 1 11 0], true))
    ∧ (push_to_buffer false
          (StageBuffer.mk 4 [make_item 0 10 0, make_item 1 11 0])
          (make_item 2 12 0)
        = (StageBuffer.mk 4
            [make_item 0 10 0, make_item 1 11 0, make_item 2 12 0], true))
    ∧ (push_to_buffer false
          (StageBuffer.mk 4
            [make_item 0 10 0, make_item 1 11 0, make_item 2 12 0])
          (make_item 3 13 0)
        = (StageBuffer.mk 4
            [make_item 0 10 0, make_item 1 11 0, make_item 2 12 0,
              make_item 3 13 0], true))
    ∧ (push_to_buffer false
          (StageBuffer.mk 4
            [make_item 0 10 0, make_item 1 11 0, make_item 2 12 0,
              make_item 3 13 0])
          (make_item 4 14 0)).2 = false
    ∧ (push_to_buffer false
          (StageBuffer.mk 4
            [make_item 0 10 0, make_item 1 11 0, make_item 2 12 0,
              make_item 3 13 0])
          (make_item 4 14 0)).1
        = StageBuffer.mk 4
            [make_item 0 10 0, make_item 1 11 0, make_item 2 12 0,
              make_item 3 13 0]
    ∧ (ring_run [RingOp.push 1, RingOp.push 2, RingOp.push 3, RingOp.push 4]
        (RingBuf.init 4)).1.contents = [1, 2, 3, 4]
    ∧ (ring_push (ring_run
        [RingOp.push 1, RingOp.push 2, RingOp.push 3, RingOp.push 4]
        (RingBuf.init 4)).1 9).2 = false
    ∧ (ring_push (ring_run
        [RingOp.push 1, RingOp.push 2, RingOp.push 3, RingOp.push 4]
        (RingBuf.init 4)).1 9).1.count
      = (ring_run [RingOp.push 1, RingOp.push 2, RingOp.push 3, RingOp.push 4]
          (RingBuf.init 4)).1.count
    ∧ (ring_run [RingOp.push 1, RingOp.push 2, RingOp.push 3, RingOp.push 4]
        (RingBuf.init 4)).1.count = 4 := by
  have h := failed_push_preserves_queue
    (ring_run [RingOp.push 1, RingOp.push 2, RingOp.push 3, RingOp.push 4]
      (RingBuf.init 4)).1 9 false
    (StageBuffer.mk 4
      [make_item 0 10 0, make_item 1 11 0, make_item 2 12 0, make_item 3 13 0])
    (make_item 4 14 0) (by decide) (by decide)
  exact ⟨by decide, by decide, by decide, by decide, by decide, h.2,
    by decide, by decide, h.1.2.2.2.1, by decide⟩

/-- C8: field-frame of the stages — the processing stage writes exactly
`processed_value` (id, raw value, validity flag and timestamp are
preserved), the filter stage writes exactly `is_valid` (everything else
preserved, the flag set to the filter verdict), and the generator
creates items with `processed_value = 0` and `is_valid = false`; no
stage other than the one responsible writes either field. -/
theorem stage_field_frame (compute : Int → Int → ℚ) (item : DataItem)
    (s : FilterState) (now : ℚ) (id raw : Int) (t : ℚ) :
    ((stage_process_item compute item).id = item.id
      ∧ (stage_process_item compute item).raw_value = item.raw_value
      ∧ (stage_process_item compute item).is_valid = item.is_valid
      ∧ (stage_process_item compute item).timestamp = item.timestamp
      ∧ (stage_process_item compute item).processed_value
          = compute item.raw_value item.id)
    ∧ ((filter_reduce_step s item now).2.id = item.id
      ∧ (filter_reduce_step s item now).2.raw_value = item.raw_value
      ∧ (filter_reduce_step s item now).2.processed_value
          = item.processed_value
      ∧ (filter_reduce_step s item now).2.timestamp = item.timestamp
      ∧ (filter_reduce_step s item now).2.is_valid = passes_filter item)
    ∧ ((make_item id raw t).processed_value = 0
      ∧ (make_item id raw t).is_valid = false) := by
  refine ⟨⟨rfl, rfl, rfl, rfl, rfl⟩, ?_, rfl, rfl⟩
  unfold filter_reduce_step
  by_cases h : passes_filter item <;> simp [h]

/-- C9: once-guard exactness — in every reachable configuration of the
once-guard protocol, any returned caller implies the single initializer
execution has completed, and when all of the n ≥ 1 callers have
returned the initializer body has executed exactly once (the counter it
increments equals exactly 1). -/
theorem once_guard_exactness (n : Nat) (s : OnceSys)
    (hreach : OnceReachable (OnceSys.start n) s) :
    (1 ≤ s.done → s.guard = .done ∧ s.counter = 1)
    ∧ (s.idle = 0 ∧ s.waiting = 0 ∧ s.running = 0 ∧ 1 ≤ n →
        s.counter = 1 ∧ s.guard = .done) := by
  obtain ⟨hcnt, htot, hns, hrun, hdone⟩ := onceInv_reachable hreach
  have hgd : 1 ≤ s.done → s.guard = .done := by
    intro hd
    cases hcase : s.guard
    · have := (hns hcase).2.2
      omega
    · have := (hrun hcase).2
      omega
    · rfl
  have hcond : s.guard = .done → s.counter = 1 := by
    intro hg
    rw [hcnt, if_pos hg]
  constructor
  · intro hd
    exact ⟨hgd hd, hcond (hgd hd)⟩
  · rintro ⟨hi, hw, hr, hn⟩
    have hd : 1 ≤ s.done := by omega
    exact ⟨hcond (hgd hd), hgd hd⟩

/-- C9 witness: a concrete complete execution with one caller — it wins
the race, executes the body, and the final counter is exactly 1. -/
theorem once_guard_exactness_witness :
    (OnceSys.mk .done 1 0 0 0 1).counter = 1
      ∧ (OnceSys.mk .done 1 0 0 0 1).guard = .done := by
  have h1 : OnceStep (OnceSys.start 1)
      (OnceSys.mk .running 0 0 0 1 0) :=
    OnceStep.arriveWin (OnceSys.start 1) (by decide) rfl
  have h2 : OnceStep (OnceSys.mk .running 0 0 0 1 0)
      (OnceSys.mk .done 1 0 0 0 1) :=
    OnceStep.execBody (OnceSys.mk .running 0 0 0 1 0) (by decide)
  have hreach : OnceReachable (OnceSys.start 1) (OnceSys.mk .done 1 0 0 0 1) :=
    Relation.ReflTransGen.tail (Relation.ReflTransGen.tail
      Relation.ReflTransGen.refl h1) h2
  exact (once_guard_exactness 1 (OnceSys.mk .done 1 0 0 0 1) hreach).2
    ⟨rfl, rfl, rfl, by omega⟩

/-- C10: counter accounting — from the initial state,
`total_produced - total_consumed = count` holds after every operation
sequence; a successful push increments `total_produced` and `count`, a
successful pop increments `total_consumed` and decrements `count`, and
failed operations change none of the three. -/
theorem ring_counter_balance (cap : Nat) (ops : List RingOp) (r : RingBuf)
    (v : Int) :
    ((ring_run ops (RingBuf.init cap)).1.total_produced
        - (ring_run ops (RingBuf.init cap)).1.total_consumed
      = ((ring_run ops (RingBuf.init cap)).1.count : Int))
    ∧ ((ring_push r v).2 = true →
        (ring_push r v).1.total_produced = r.total_produced + 1
          ∧ (ring_push r v).1.count = r.count + 1)
    ∧ ((ring_push r v).2 = false →
        (ring_push r v).1.total_produced = r.total_produced
          ∧ (ring_push r v).1.count = r.count)
    ∧ (ring_push r v).1.total_consumed = r.total_consumed
    ∧ ((ring_pop r).2.isSome = true →
        (ring_pop r).1.total_consumed = r.total_consumed + 1
          ∧ (ring_pop r).1.count = r.count - 1)
    ∧ ((ring_pop r).2 = none →
        (ring_pop r).1.total_consumed = r.total_consumed
          ∧ (ring_pop r).1.count = r.count)
    ∧ (ring_pop r).1.total_produced = r.total_produced := by
  refine ⟨ring_run_balance ops (RingBuf.init cap) rfl, ?_, ?_, ?_, ?_, ?_, ?_⟩
  · intro hp
    obtain ⟨hc, hs, hf⟩ := (ring_push_succ_iff r v).mp hp
    rw [ring_push_succ_eq r v hc hs hf]
    exact ⟨rfl, rfl⟩
  · intro hp
    obtain ⟨-, -, -, -, h5, -, -, h8, -⟩ := ring_push_fail_frame r v hp
    exact ⟨h8, h5⟩
  · by_cases hp : (ring_push r v).2 = true
    · obtain ⟨hc, hs, hf⟩ := (ring_push_succ_iff r v).mp hp
      rw [ring_push_succ_eq r v hc hs hf]
    · obtain ⟨-, -, -, -, -, -, -, -, h9⟩ :=
        ring_push_fail_frame r v (bool_eq_false_of_ne_true hp)
      exact h9
  · intro hp
    have hc := (ring_pop_some_iff r).mp hp
    rw [ring_pop_succ_eq r hc]
    exact ⟨rfl, rfl⟩
  · intro hp
    obtain ⟨-, -, -, -, h5, -, -, -, h9⟩ := ring_pop_fail_frame r hp
    exact ⟨h9, h5⟩
  · by_cases hp : (ring_pop r).2.isSome = true
    · have hc := (ring_pop_some_iff r).mp hp
      rw [ring_pop_succ_eq r hc]
    · have hnone : (ring_pop r).2 = none := by
        cases hq : (ring_pop r).2
        · rfl
        · exact absurd (by simp [hq]) hp
      obtain ⟨-, -, -, -, -, -, -, h8, -⟩ := ring_pop_fail_frame r hnone
      exact h8

/-- C10 witness: the counter balance after two pushes and a pop at
capacity 2, and the increment behavior of a successful push on the
fresh ring. -/
theorem ring_counter_balance_witness :
    ((ring_run [RingOp.push 1, RingOp.push 2, RingOp.pop]
          (RingBuf.init 2)).1.total_produced
        - (ring_run [RingOp.push 1, RingOp.push 2, RingOp.pop]
          (RingBuf.init 2)).1.total_consumed
      = ((ring_run [RingOp.push 1, RingOp.push 2, RingOp.pop]
          (RingBuf.init 2)).1.count : Int))
    ∧ ((ring_push (RingBuf.init 2) 5).1.total_produced
          = (RingBuf.init 2).total_produced + 1
        ∧ (ring_push (RingBuf.init 2) 5).1.count = (RingBuf.init 2).count + 1) := by
  have h := ring_counter_balance 2 [RingOp.push 1, RingOp.push 2, RingOp.pop]
    (RingBuf.init 2) 5
  exact ⟨h.1, h.2.1 (by decide)⟩

end Lab6
